import Mathlib

/-
Formal model of a census-income classification pipeline consisting of a
record cleaner (get_data), a classifier builder (create_classifier) and an
evaluator (test_classifier), together with theorems about their behaviour.

Modelling conventions:
- Python strings are modelled as Lean `String` (a wrapper around `List Char`);
  the string helpers below reproduce the Python operations used by the source
  (`str.replace`, `str.strip`, `str.split`, the `in` substring test for a
  single-character needle, `str.isnumeric` and `int`) on ASCII data.
- Python float arithmetic is modelled by exact rational arithmetic over `ℚ`;
  `round(x, 2)` is modelled by round-half-to-even at two decimal places.
- Runtime exceptions (IndexError from `del record[11]` / `record[-1]` /
  `classifier[0][next_index]`, ZeroDivisionError from `/`) are modelled with
  `Except PyErr`; an uncaught exception aborts the surrounding computation.
- The cleaner's internal rejection counter (`bad_records`) and its printed
  diagnostics are exposed as fields of the result state so that claims about
  them can be stated; the source returns only the cleaned record tuple.
-/

namespace IncomePredictor

/-- Python runtime errors that the source can raise. -/
inductive PyErr where
  | indexError : PyErr
  | zeroDiv : PyErr
deriving DecidableEq

/-- Python `str.isnumeric` restricted to ASCII text: the string is nonempty
and every character is a decimal digit `0`-`9`. -/
def pyIsNumeric (s : String) : Bool :=
  !s.toList.isEmpty && s.toList.all Char.isDigit

/-- Python `int` on a string accepted by `isnumeric` (ASCII digits only). -/
def pyInt (s : String) : ℕ :=
  s.toList.foldl (fun n c => 10 * n + (c.toNat - 48)) 0

/-- Modelled from the spec: a string "parses entirely as an integer", i.e.
an optional sign followed by at least one decimal digit.  This is the
predicate the spec claims governs the numeric/categorical split; it is kept
separate from `pyIsNumeric` (the predicate the source actually uses) so that
the two can be compared. -/
def specParsesAsInt (s : String) : Bool :=
  match s.toList with
  | '-' :: ds => !ds.isEmpty && ds.all Char.isDigit
  | '+' :: ds => !ds.isEmpty && ds.all Char.isDigit
  | ds => !ds.isEmpty && ds.all Char.isDigit

/-- Python `data.replace(", ", ",")`: replace every (non-overlapping,
left-to-right) occurrence of a comma followed by a space with a comma. -/
def replaceCommaSpace : List Char → List Char
  | ',' :: ' ' :: rest => ',' :: replaceCommaSpace rest
  | c :: rest => c :: replaceCommaSpace rest
  | [] => []

/-- Python `data.replace(" ,", ",")`. -/
def replaceSpaceComma : List Char → List Char
  | ' ' :: ',' :: rest => ',' :: replaceSpaceComma rest
  | c :: rest => c :: replaceSpaceComma rest
  | [] => []

/-- Whitespace characters stripped by Python `str.strip` (the ones that can
occur in the data of interest). -/
def isWS (c : Char) : Bool :=
  c == ' ' || c == '\t' || c == '\n' || c == '\r'

/-- Python `str.strip()`: drop whitespace from both ends. -/
def pyStrip (l : List Char) : List Char :=
  ((l.dropWhile isWS).reverse.dropWhile isWS).reverse

/-- Python `str.split(sep)` for a single-character separator: accumulator
`acc` holds the characters of the current field in reverse. -/
def splitCharsAux (sep : Char) : List Char → List Char → List (List Char)
  | acc, [] => [acc.reverse]
  | acc, c :: rest =>
    if c = sep then acc.reverse :: splitCharsAux sep [] rest
    else splitCharsAux sep (c :: acc) rest

/-- Python `record.split(",")`. -/
def pySplitComma (s : String) : List String :=
  (splitCharsAux ',' [] s.toList).map String.mk

/-- Python `str.split("\n")`. -/
def splitNewlines (l : List Char) : List String :=
  (splitCharsAux '\n' [] l).map String.mk

/-- The preprocessing in `get_data`:
`data.replace(", ", ",").replace(" ,", ",").strip().split("\n")`. -/
def prepLines (raw : String) : List String :=
  splitNewlines (pyStrip (replaceSpaceComma (replaceCommaSpace raw.toList)))

/-- State accumulated by the cleaner loop: the rejection counter
`bad_records`, the cleaned records, and the printed diagnostics. -/
structure CleanState where
  badRecords : ℕ
  cleaned : List (List String)
  diags : List String
deriving DecidableEq

/-- Python `del record[2:4], record[11]` applied to a field list that is long
enough: slice deletion removes the (existing) indices 2 and 3, then the
element at index 11 of the shortened list is removed. -/
def delCols (fields : List String) : List String :=
  (fields.take 2 ++ fields.drop 4).eraseIdx 11

/-- One iteration of the cleaner loop of `get_data` on a single line.
A line containing the missing-value marker is skipped silently.  Otherwise
the line is split on commas; `split` always returns at least one field, so
the `if not record: raise ValueError` guard never fires (were it to fire,
the handler itself would crash printing `record[0]` of an empty list, hence
the `indexError` result on that dead branch).  `del record[2:4]` always
succeeds, and `del record[11]` raises an uncaught IndexError unless the
shortened list still has at least 12 fields. -/
def cleanStep (st : CleanState) (line : String) : Except PyErr CleanState :=
  if line.toList.contains '?' then .ok st
  else if pySplitComma line = [] then .error .indexError
  else if 11 < ((pySplitComma line).take 2 ++ (pySplitComma line).drop 4).length then
    .ok { st with cleaned :=
      st.cleaned ++ [((pySplitComma line).take 2 ++ (pySplitComma line).drop 4).eraseIdx 11] }
  else .error .indexError

/-- The cleaner loop over all lines; an uncaught exception aborts the run. -/
def cleanLines (st : CleanState) : List String → Except PyErr CleanState
  | [] => .ok st
  | l :: rest =>
    match cleanStep st l with
    | .error e => .error e
    | .ok st' => cleanLines st' rest

/-- `get_data` on raw text: preprocess, then run the cleaner loop. -/
def get_data (raw : String) : Except PyErr CleanState :=
  cleanLines ⟨0, [], []⟩ (prepLines raw)

/-- The attribute fields of a record: every field except the trailing label
(the loops in the source run over `range(0, len(record) - 1)`). -/
def attrsOf (r : List String) : List String := r.dropLast

/-- `record[-1] == ">50K"` (on a nonempty record). -/
def isPositive (r : List String) : Bool := r.getLast? == some ">50K"

/-- The records of the training data that fall in the positive pool. -/
def posRecords (data : List (List String)) : List (List String) :=
  data.filter isPositive

/-- The records that fall in the negative pool (any label other than
`">50K"`). -/
def negRecords (data : List (List String)) : List (List String) :=
  data.filter (fun r => !isPositive r)

/-- The numeric attribute values of one record, in schema order, converted
with `int` — the values a record contributes to a numeric pool. -/
def numVals (r : List String) : List ℕ :=
  (attrsOf r).filterMap (fun s => if pyIsNumeric s then some (pyInt s) else none)

/-- The non-numeric attribute values of one record, in schema order — the
values a record contributes to a categorical pool. -/
def catVals (r : List String) : List String :=
  (attrsOf r).filter (fun s => !pyIsNumeric s)

/-- Concatenation of a list of lists (the flat pool built by appending each
record's values in turn). -/
def concatAll : List (List α) → List α
  | [] => []
  | c :: cs => c ++ concatAll cs

/-- The flat pool `pos_num_attr` of the source. -/
def pos_num_attr (data : List (List String)) : List ℕ :=
  concatAll ((posRecords data).map numVals)

/-- The flat pool `neg_num_attr` of the source. -/
def neg_num_attr (data : List (List String)) : List ℕ :=
  concatAll ((negRecords data).map numVals)

/-- The flat pool `pos_not_num_attr` of the source. -/
def pos_not_num_attr (data : List (List String)) : List String :=
  concatAll ((posRecords data).map catVals)

/-- The flat pool `neg_not_num_attr` of the source. -/
def neg_not_num_attr (data : List (List String)) : List String :=
  concatAll ((negRecords data).map catVals)

/-- Append each element of `vs` that is not already present to `acc` (the
list comprehension building `not_num_sub_attr`, for one record). -/
def addCats (acc : List String) (vs : List String) : List String :=
  vs.foldl (fun a v => if v ∈ a then a else a ++ [v]) acc

/-- `not_num_sub_attr`: the distinct non-numeric attribute values of all
records, in order of first occurrence. -/
def not_num_sub_attr (data : List (List String)) : List String :=
  data.foldl (fun acc r => addCats acc (catVals r)) []

/-- Helper for the Python slice `l[::k]`: take an element when the skip
counter is 0 (resetting it to `k - 1`), otherwise decrement the counter. -/
def everyNthAux (k : ℕ) : List α → ℕ → List α
  | [], _ => []
  | x :: xs, 0 => x :: everyNthAux k xs (k - 1)
  | _ :: xs, c + 1 => everyNthAux k xs c

/-- Python slice `l[::k]` for `k ≥ 1`: every `k`-th element starting at the
head. -/
def everyNth (l : List α) (k : ℕ) : List α := everyNthAux k l 0

/-- The mean of a list of naturals as an exact rational (`sum(l) / len(l)`,
Python float division modelled exactly). -/
def mean (l : List ℕ) : ℚ := (l.sum : ℚ) / l.length

/-- Left-to-right effectful map over `Except`: the loop bodies of the source
that can raise. -/
def exceptMap (f : α → Except ε β) : List α → Except ε (List β)
  | [] => .ok []
  | x :: xs =>
    match f x with
    | .error e => .error e
    | .ok y =>
      match exceptMap f xs with
      | .error e => .error e
      | .ok ys => .ok (y :: ys)

/-- The `midpoint_num` loop of `create_classifier`: for each of the 5 lanes,
the average of the two stride-slice means; an empty slice in either pool is
a ZeroDivisionError. -/
def midpoint_num (pos neg : List ℕ) : Except PyErr (List ℚ) :=
  exceptMap
    (fun i =>
      if everyNth (pos.drop i) 5 = [] ∨ everyNth (neg.drop i) 5 = [] then
        .error .zeroDiv
      else
        .ok ((mean (everyNth (pos.drop i) 5) + mean (everyNth (neg.drop i) 5)) / 2))
    (List.range 5)

/-- The occurrence-rate ratio used by the source for a categorical value:
its count in the pool divided by the length of the stride slice `pool[::6]`
(the number of per-record groups of six the pool holds). -/
def occRate (pool : List String) (v : String) : ℚ :=
  (pool.count v : ℚ) / ((everyNth pool 6).length : ℚ)

/-- The sentiment the source assigns to a categorical value from the two
occurrence-rate ratios. -/
def sentimentOf (posPool negPool : List String) (v : String) : String :=
  if occRate negPool v < occRate posPool v then "pos"
  else if occRate posPool v < occRate negPool v then "neg"
  else "neutral"

/-- The outcome loop of `create_classifier`: one sentiment per distinct
categorical value; an empty pool is a ZeroDivisionError as soon as the loop
body runs at least once. -/
def outcomes (posPool negPool : List String) (cats : List String) :
    Except PyErr (List String) :=
  exceptMap
    (fun v =>
      if posPool = [] ∨ negPool = [] then .error .zeroDiv
      else .ok (sentimentOf posPool negPool v))
    cats

/-- `create_classifier`: an empty record raises IndexError at `record[-1]`
while the pools are being built; then the numeric midpoints and the
categorical sentiment table are computed.  The dict built by
`dict(zip(...))` is modelled as the association list of key/sentiment
pairs (the keys are distinct by construction). -/
def create_classifier (data : List (List String)) :
    Except PyErr (List ℚ × List (String × String)) :=
  if data.any (fun r => r.isEmpty) then .error .indexError
  else
    match midpoint_num (pos_num_attr data) (neg_num_attr data) with
    | .error e => .error e
    | .ok mids =>
      match outcomes (pos_not_num_attr data) (neg_not_num_attr data)
          (not_num_sub_attr data) with
      | .error e => .error e
      | .ok outs => .ok (mids, (not_num_sub_attr data).zip outs)

/-- The per-record voting loop of `test_classifier`: walk the attribute
values with positive/negative counters and the numeric-lane cursor
`next_index`; a numeric value is compared against `thresholds[next_index]`
(IndexError when the cursor runs past the thresholds), a non-numeric value
votes by its sentiment, where a missing or `"neutral"` entry casts no
vote. -/
def voteLoop (th : List ℚ) (tbl : List (String × String)) :
    List String → ℕ → ℕ → ℕ → Except PyErr (ℕ × ℕ)
  | [], p, n, _ => .ok (p, n)
  | s :: rest, p, n, cur =>
    if pyIsNumeric s then
      match th.get? cur with
      | none => .error .indexError
      | some t =>
        if t < (pyInt s : ℚ) then voteLoop th tbl rest (p + 1) n (cur + 1)
        else voteLoop th tbl rest p (n + 1) (cur + 1)
    else
      match tbl.lookup s with
      | some o =>
        if o = "pos" then voteLoop th tbl rest (p + 1) n cur
        else if o = "neg" then voteLoop th tbl rest p (n + 1) cur
        else voteLoop th tbl rest p n cur
      | none => voteLoop th tbl rest p n cur

/-- The label the evaluator predicts for a record: `">50K"` exactly when the
positive votes strictly exceed the negative votes. -/
def predictLabel (th : List ℚ) (tbl : List (String × String))
    (r : List String) : Except PyErr String :=
  match voteLoop th tbl (attrsOf r) 0 0 0 with
  | .error e => .error e
  | .ok (p, n) => .ok (if n < p then ">50K" else "<=50K")

/-- Whether the evaluator counts a record as misclassified: the true label
differs from the predicted one (the source's two-branch comparison against
`record[-1]`, which raises IndexError on an empty record). -/
def misjudged (th : List ℚ) (tbl : List (String × String))
    (r : List String) : Except PyErr Bool :=
  match predictLabel th tbl r with
  | .error e => .error e
  | .ok pred =>
    match r.getLast? with
    | none => .error .indexError
    | some lab => .ok (decide (lab ≠ pred))

/-- Python `round` to an integer: round half to even. -/
def roundHalfEven (q : ℚ) : ℤ :=
  if q - ⌊q⌋ < 1 / 2 then ⌊q⌋
  else if 1 / 2 < q - ⌊q⌋ then ⌊q⌋ + 1
  else if ⌊q⌋ % 2 = 0 then ⌊q⌋ else ⌊q⌋ + 1

/-- Python `round(x, 2)`: round half to even at two decimal places. -/
def pyRound2 (q : ℚ) : ℚ := ((roundHalfEven (q * 100) : ℤ) : ℚ) / 100

/-- `test_classifier`: count the misclassified records, then report
`round(abs(incorrect / len * 100 - 100), 2)`; the empty test set raises
ZeroDivisionError. -/
def test_classifier (test : List (List String))
    (c : List ℚ × List (String × String)) : Except PyErr ℚ :=
  match exceptMap (misjudged c.1 c.2) test with
  | .error e => .error e
  | .ok ms =>
    if test.length = 0 then .error .zeroDiv
    else .ok (pyRound2 |(ms.count true : ℚ) / (test.length : ℚ) * 100 - 100|)

/-- The `i`-th numeric attribute value of each record of `rs` (0 when a
record has fewer than `i + 1` numeric attributes) — the values the spec
says land in numeric lane `i`. -/
def specLaneVals (rs : List (List String)) (i : ℕ) : List ℕ :=
  rs.map (fun r => (numVals r).getD i 0)

/-- The threshold the spec prescribes for lane `i`: the midpoint of the two
per-lane means. -/
def specThreshold (data : List (List String)) (i : ℕ) : ℚ :=
  (mean (specLaneVals (posRecords data) i) +
    mean (specLaneVals (negRecords data) i)) / 2

/-- The positive votes the spec prescribes for a walk over the attribute
values `l`: the `j`-th numeric value is compared against the `j`-th
threshold, and each non-numeric value with sentiment `"pos"` votes once. -/
def specPosVotes (th : List ℚ) (tbl : List (String × String))
    (l : List String) : ℕ :=
  ((l.filter pyIsNumeric).zip th).countP
      (fun p => decide (p.2 < (pyInt p.1 : ℚ))) +
    (l.filter (fun s => !pyIsNumeric s)).countP
      (fun s => tbl.lookup s == some "pos")

/-- The negative votes the spec prescribes: numeric values not strictly
above their threshold, plus non-numeric values with sentiment `"neg"`. -/
def specNegVotes (th : List ℚ) (tbl : List (String × String))
    (l : List String) : ℕ :=
  ((l.filter pyIsNumeric).zip th).countP
      (fun p => !decide (p.2 < (pyInt p.1 : ℚ))) +
    (l.filter (fun s => !pyIsNumeric s)).countP
      (fun s => tbl.lookup s == some "neg")

/-- Which of the 15 raw census columns hold numeric strings (age, fnlwgt,
education-num, capital-gain, capital-loss, hours-per-week). -/
def mask15 : List Bool :=
  [true, false, true, false, true, false, false, false,
    false, false, true, true, true, false, false]

/-- Which of the 11 survived attribute positions hold numeric strings after
`delCols` (the label sits at position 11 and is not an attribute). -/
def mask11 : List Bool :=
  [true, false, true, false, false, false, false, false, true, true, true]

/-- Scenario record: lane-0 numeric value 50, label `">50K"`. -/
def rec50 : List String :=
  ["50", "Private", "13", "Married", "Exec", "Husband",
    "White", "Male", "0", "0", "40", ">50K"]

/-- Scenario record: lane-0 numeric value 30, label `"<=50K"`. -/
def rec30 : List String :=
  ["30", "Private", "10", "Single", "Tech", "NotInFam",
    "White", "Female", "0", "0", "40", "<=50K"]

/-- The two-record scenario training set. -/
def scenarioData : List (List String) := [rec50, rec30]

/-- A raw input line free of the missing-value marker that splits into 14
fields. -/
def row14 : String := "a,b,c,d,e,f,g,h,i,j,k,l,m,n"

/-- A well-formed 15-column census row. -/
def row15 : String :=
  "39,State-gov,77516,Bachelors,13,Never-married,Adm-clerical,Not-in-family,White,Male,2174,0,40,United-States,<=50K"

/-- A raw input line containing the missing-value marker. -/
def rowMissing : String := "39,State-gov,?,Bachelors,13"

/-- A training set whose only record carries the categorical value `"-5"`. -/
def dataMinus5 : List (List String) := [["-5", "x", ">50K"]]

theorem splitCharsAux_ne_nil (sep : Char) :
    ∀ (acc l : List Char), splitCharsAux sep acc l ≠ [] := by
  intro acc l
  induction l generalizing acc with
  | nil => simp [splitCharsAux]
  | cons c rest ih =>
    simp only [splitCharsAux]
    split
    · simp
    · exact ih (c :: acc)

theorem pySplitComma_ne_nil (s : String) : pySplitComma s ≠ [] := by
  unfold pySplitComma
  intro h
  exact splitCharsAux_ne_nil ',' [] s.toList (List.map_eq_nil_iff.mp h)

theorem cleanStep_ok_preserves (st st' : CleanState) (line : String)
    (h : cleanStep st line = .ok st') :
    st'.badRecords = st.badRecords ∧ st'.diags = st.diags := by
  unfold cleanStep at h
  split at h
  · cases h
    exact ⟨rfl, rfl⟩
  · split at h
    · cases h
    · split at h
      · cases h
        exact ⟨rfl, rfl⟩
      · cases h

theorem cleanStep_error_eq (st : CleanState) (line : String) (e : PyErr)
    (h : cleanStep st line = .error e) : e = .indexError := by
  unfold cleanStep at h
  split at h
  · cases h
  · split at h
    · cases h
      rfl
    · split at h
      · cases h
      · cases h
        rfl

theorem cleanLines_ok_preserves :
    ∀ (lines : List String) (st st' : CleanState),
      cleanLines st lines = .ok st' →
      st'.badRecords = st.badRecords ∧ st'.diags = st.diags := by
  intro lines
  induction lines with
  | nil =>
    intro st st' h
    cases h
    exact ⟨rfl, rfl⟩
  | cons l rest ih =>
    intro st st' h
    unfold cleanLines at h
    cases hst : cleanStep st l with
    | error e => rw [hst] at h; cases h
    | ok st1 =>
      rw [hst] at h
      have h1 := cleanStep_ok_preserves st st1 l hst
      have h2 := ih st1 st' h
      exact ⟨h2.1.trans h1.1, h2.2.trans h1.2⟩

theorem cleanStep_skip (st : CleanState) (line : String)
    (h : line.toList.contains '?' = true) : cleanStep st line = .ok st := by
  unfold cleanStep
  rw [h]
  rfl

/-- A line free of the missing-value marker whose comma-split has fewer
than 14 fields makes `cleanStep` raise IndexError. -/
theorem cleanStep_short (st : CleanState) (line : String)
    (hq : line.toList.contains '?' = false)
    (hlen : (pySplitComma line).length < 14) :
    cleanStep st line = .error .indexError := by
  unfold cleanStep
  rw [hq]
  simp only [Bool.false_eq_true, if_false]
  have hne : pySplitComma line ≠ [] := pySplitComma_ne_nil line
  rw [if_neg hne]
  have hlen2 :
      ¬ 11 < ((pySplitComma line).take 2 ++ (pySplitComma line).drop 4).length := by
    simp only [List.length_append, List.length_take, List.length_drop]
    omega
  rw [if_neg hlen2]

theorem cleanLines_abort :
    ∀ (lines : List String) (st : CleanState),
      (∃ line ∈ lines, line.toList.contains '?' = false ∧
        (pySplitComma line).length < 14) →
      cleanLines st lines = .error .indexError := by
  intro lines
  induction lines with
  | nil =>
    intro st h
    rcases h with ⟨line, hmem, _⟩
    cases hmem
  | cons l rest ih =>
    intro st h
    rcases h with ⟨line, hmem, hq, hlen⟩
    unfold cleanLines
    rcases List.mem_cons.mp hmem with heq | htail
    · subst heq
      rw [cleanStep_short st line hq hlen]
    · cases hst : cleanStep st l with
      | error e =>
        rw [cleanStep_error_eq st l e hst]
      | ok st' =>
        exact ih st' ⟨line, htail, hq, hlen⟩

/-- C7: for every raw row containing the missing-value marker `?`, the
cleaner produces no record, leaves the discard counter and the diagnostics
unchanged, and continues with the next row — removing the row from the
input leaves the whole cleaning run unchanged. -/
theorem C7_missing_value_rows_silently_skipped :
    (∀ (st : CleanState) (line : String),
      line.toList.contains '?' = true → cleanStep st line = .ok st) ∧
    (∀ (st : CleanState) (pre post : List String) (line : String),
      line.toList.contains '?' = true →
      cleanLines st (pre ++ line :: post) = cleanLines st (pre ++ post)) := by
  refine ⟨cleanStep_skip, ?_⟩
  intro st pre post line h
  induction pre generalizing st with
  | nil =>
    simp only [List.nil_append]
    simp only [cleanLines]
    rw [cleanStep_skip st line h]
  | cons l rest ih =>
    simp only [List.cons_append]
    simp only [cleanLines]
    cases hst : cleanStep st l with
    | error e => rfl
    | ok st' => exact ih st'

theorem C7_missing_value_rows_silently_skipped_witness :
    cleanStep ⟨0, [], []⟩ rowMissing = .ok ⟨0, [], []⟩ ∧
    cleanLines ⟨0, [], []⟩ ([row15] ++ rowMissing :: []) =
      cleanLines ⟨0, [], []⟩ ([row15] ++ []) :=
  ⟨C7_missing_value_rows_silently_skipped.1 ⟨0, [], []⟩ rowMissing (by decide),
    C7_missing_value_rows_silently_skipped.2 ⟨0, [], []⟩ [row15] [] rowMissing
      (by decide)⟩

/-- C8 fails on the code: processing the row `"39,State-gov,?,Bachelors,13"`
leaves the discard counter at 0 — it does not increase it to 1. -/
theorem C8_counterexample :
    get_data rowMissing = .ok ⟨0, [], []⟩ ∧
    (⟨0, [], []⟩ : CleanState).badRecords = 0 ∧ (0 : ℕ) ≠ 1 := by
  refine ⟨by rfl, rfl, by decide⟩

/-- C8 amended: processing a raw row containing the missing-value marker
`?` drops the record, leaves the discard count unchanged, and adds no entry
to the cleaned output. -/
theorem C8_amended_missing_row_dropped_without_count :
    (∀ st : CleanState, cleanStep st rowMissing = .ok st) ∧
    get_data rowMissing = .ok ⟨0, [], []⟩ := by
  constructor
  · intro st
    exact cleanStep_skip st rowMissing (by decide)
  · rfl

/-- C9: the source intends a local rejection (counter, diagnostic, continue)
for a record that splits into zero fields, but `split(",")` always returns
at least one field, so that branch is dead code; on the nearest realizable
input — the empty line — cleaning aborts with an uncaught IndexError
instead, and on no input at all is the counter ever incremented or a
diagnostic ever emitted. -/
theorem C9_empty_split_rejection_unreachable :
    (∀ s : String, pySplitComma s ≠ []) ∧
    get_data "" = .error .indexError ∧
    (∀ (raw : String) (st : CleanState),
      get_data raw = .ok st → st.badRecords = 0 ∧ st.diags = []) := by
  refine ⟨pySplitComma_ne_nil, by rfl, ?_⟩
  intro raw st h
  exact cleanLines_ok_preserves (prepLines raw) ⟨0, [], []⟩ st h

theorem C9_empty_split_rejection_unreachable_witness :
    (⟨0, [delCols (pySplitComma row15)], []⟩ : CleanState).badRecords = 0 ∧
    (⟨0, [delCols (pySplitComma row15)], []⟩ : CleanState).diags = [] :=
  C9_empty_split_rejection_unreachable.2.2 row15
    ⟨0, [delCols (pySplitComma row15)], []⟩ (by rfl)

/-- C10: every input line free of `?` that splits into fewer than 14 fields
aborts the entire cleaning run with an uncaught IndexError (the ValueError
handler does not catch it); the empty line splits into a single empty
field. -/
theorem C10_short_line_aborts_cleaning :
    (∀ raw : String,
      (∃ line ∈ prepLines raw, line.toList.contains '?' = false ∧
        (pySplitComma line).length < 14) →
      get_data raw = .error .indexError) ∧
    pySplitComma "" = [""] := by
  constructor
  · intro raw h
    exact cleanLines_abort (prepLines raw) ⟨0, [], []⟩ h
  · decide

theorem C10_short_line_aborts_cleaning_witness :
    get_data "a,b" = .error .indexError :=
  C10_short_line_aborts_cleaning.1 "a,b"
    ⟨"a,b", by decide, by decide, by decide⟩

theorem drop_cons_getD {α : Type _} :
    ∀ (l : List α) (i : ℕ) (d : α), i < l.length →
      l.drop i = l.getD i d :: l.drop (i + 1) := by
  intro l
  induction l with
  | nil =>
    intro i d h
    simp at h
  | cons x xs ih =>
    intro i d h
    cases i with
    | zero => rfl
    | succ j =>
      simp only [List.drop_succ_cons, List.getD_cons_succ]
      exact ih j d (by simpa using h)

theorem get?_eq_getD_of_lt {α : Type _} :
    ∀ (l : List α) (i : ℕ) (d : α), i < l.length →
      l.get? i = some (l.getD i d) := by
  intro l
  induction l with
  | nil =>
    intro i d h
    simp at h
  | cons x xs ih =>
    intro i d h
    cases i with
    | zero => rfl
    | succ j => exact ih j d (by simpa using h)

theorem everyNthAux_drop {α : Type _} (k : ℕ) :
    ∀ (xs : List α) (c : ℕ), everyNthAux k xs c = everyNthAux k (xs.drop c) 0 := by
  intro xs
  induction xs with
  | nil => intro c; simp [everyNthAux]
  | cons x xs ih =>
    intro c
    cases c with
    | zero => rfl
    | succ c' =>
      show everyNthAux k xs c' = _
      rw [ih c']
      rfl

theorem everyNth_nil {α : Type _} (k : ℕ) : everyNth ([] : List α) k = [] := rfl

theorem everyNth_cons {α : Type _} (x : α) (xs : List α) (k : ℕ) :
    everyNth (x :: xs) k = x :: everyNth (xs.drop (k - 1)) k := by
  show everyNthAux k (x :: xs) 0 = x :: everyNthAux k (xs.drop (k - 1)) 0
  rw [show everyNthAux k (x :: xs) 0 = x :: everyNthAux k xs (k - 1) from rfl]
  rw [everyNthAux_drop k xs (k - 1)]

theorem everyNth_eq_nil_iff {α : Type _} (l : List α) (k : ℕ) :
    everyNth l k = [] ↔ l = [] := by
  cases l with
  | nil => simp [everyNth_nil]
  | cons x xs => simp [everyNth_cons]

theorem mem_concatAll {α : Type _} (x : α) :
    ∀ ll : List (List α), x ∈ concatAll ll ↔ ∃ c ∈ ll, x ∈ c := by
  intro ll
  induction ll with
  | nil => simp [concatAll]
  | cons c cs ih =>
    simp only [concatAll, List.mem_append, ih, List.mem_cons]
    constructor
    · rintro (hx | ⟨c', hc', hx⟩)
      · exact ⟨c, Or.inl rfl, hx⟩
      · exact ⟨c', Or.inr hc', hx⟩
    · rintro ⟨c', hc' | hc', hx⟩
      · subst hc'
        exact Or.inl hx
      · exact Or.inr ⟨c', hc', hx⟩

theorem everyNth_concatAll {α : Type _} (k i : ℕ) (d : α) (hi : i < k) :
    ∀ ll : List (List α), (∀ c ∈ ll, c.length = k) →
      everyNth ((concatAll ll).drop i) k = ll.map (fun c => c.getD i d) := by
  intro ll
  induction ll with
  | nil => simp [concatAll, everyNth_nil]
  | cons c cs ih =>
    intro hlen
    have hc : c.length = k := hlen c (List.mem_cons_self c cs)
    have hics : ∀ c' ∈ cs, c'.length = k :=
      fun c' hc' => hlen c' (List.mem_cons_of_mem c hc')
    have hc1 : i < c.length := by omega
    have h1 : (concatAll (c :: cs)).drop i =
        c.getD i d :: (c.drop (i + 1) ++ concatAll cs) := by
      show (c ++ concatAll cs).drop i = _
      rw [List.drop_append_eq_append_drop]
      rw [Nat.sub_eq_zero_of_le (by omega : i ≤ c.length), List.drop_zero]
      rw [drop_cons_getD c i d hc1]
      rfl
    rw [h1, everyNth_cons]
    have h2 : (c.drop (i + 1) ++ concatAll cs).drop (k - 1) =
        (concatAll cs).drop i := by
      rw [List.drop_append_eq_append_drop]
      have h3 : c.length ≤ (i + 1) + (k - 1) := by omega
      rw [List.drop_drop, List.drop_eq_nil_of_le (by simpa using h3)]
      have h4 : k - 1 - (c.drop (i + 1)).length = i := by
        simp only [List.length_drop]
        omega
      rw [h4, List.nil_append]
    rw [h2, ih hics]
    rfl

theorem exceptMap_all_ok {α β ε : Type _} (f : α → Except ε β) (g : α → β) :
    ∀ l : List α, (∀ x ∈ l, f x = .ok (g x)) →
      exceptMap f l = .ok (l.map g) := by
  intro l
  induction l with
  | nil => intro _; rfl
  | cons x xs ih =>
    intro h
    have hx : f x = .ok (g x) := h x (List.mem_cons_self x xs)
    have hxs := ih (fun y hy => h y (List.mem_cons_of_mem x hy))
    simp only [exceptMap, hx, hxs, List.map_cons]

theorem exceptMap_first_error {α β ε : Type _} (f : α → Except ε β) (e : ε) :
    ∀ l : List α,
      (∀ x ∈ l, f x = .error e ∨ ∃ y, f x = .ok y) →
      (∃ x ∈ l, f x = .error e) →
      exceptMap f l = .error e := by
  intro l
  induction l with
  | nil =>
    rintro _ ⟨x, hx, _⟩
    cases hx
  | cons x xs ih =>
    rintro hall ⟨z, hz, hze⟩
    rcases hall x (List.mem_cons_self x xs) with hx | ⟨y, hy⟩
    · simp only [exceptMap, hx]
    · rcases List.mem_cons.mp hz with rfl | hz'
      · rw [hy] at hze
        cases hze
      · have hxs := ih (fun a ha => hall a (List.mem_cons_of_mem x ha))
          ⟨z, hz', hze⟩

        simp only [exceptMap, hy, hxs]

theorem exceptMap_ok_length {α β ε : Type _} (f : α → Except ε β) :
    ∀ (l : List α) (ys : List β), exceptMap f l = .ok ys →
      ys.length = l.length := by
  intro l
  induction l with
  | nil =>
    intro ys h
    cases h
    rfl
  | cons x xs ih =>
    intro ys h
    unfold exceptMap at h
    cases hx : f x with
    | error e => rw [hx] at h; cases h
    | ok y =>
      rw [hx] at h
      cases hxs : exceptMap f xs with
      | error e => rw [hxs] at h; cases h
      | ok ys' =>
        rw [hxs] at h
        cases h
        simp [ih ys' hxs]

theorem zip_self_map {α β : Type _} (g : α → β) :
    ∀ l : List α, l.zip (l.map g) = l.map (fun a => (a, g a)) := by
  intro l
  induction l with
  | nil => rfl
  | cons x xs ih => simp [ih]

theorem addCats_cons (acc : List String) (v : String) (vs : List String) :
    addCats acc (v :: vs) = addCats (if v ∈ acc then acc else acc ++ [v]) vs :=
  rfl

theorem mem_addCats (x : String) :
    ∀ (vs acc : List String), x ∈ addCats acc vs ↔ x ∈ acc ∨ x ∈ vs := by
  intro vs
  induction vs with
  | nil => simp [addCats]
  | cons v vs ih =>
    intro acc
    rw [addCats_cons, ih]
    by_cases hv : v ∈ acc
    · simp only [if_pos hv, List.mem_cons]
      constructor
      · rintro (hx | hx)
        · exact Or.inl hx
        · exact Or.inr (Or.inr hx)
      · rintro (hx | rfl | hx)
        · exact Or.inl hx
        · exact Or.inl hv
        · exact Or.inr hx
    · simp only [if_neg hv, List.mem_append, List.mem_singleton, List.mem_cons]
      tauto

theorem nodup_addCats :
    ∀ (vs acc : List String), acc.Nodup → (addCats acc vs).Nodup := by
  intro vs
  induction vs with
  | nil => intro acc h; simpa [addCats] using h
  | cons v vs ih =>
    intro acc h
    rw [addCats_cons]
    by_cases hv : v ∈ acc
    · rw [if_pos hv]
      exact ih acc h
    · rw [if_neg hv]
      refine ih (acc ++ [v]) ?_
      rw [List.nodup_append]
      refine ⟨h, List.nodup_singleton v, ?_⟩
      intro a ha hb
      rw [List.mem_singleton] at hb
      subst hb
      exact hv ha

theorem mem_fold_addCats (x : String) :
    ∀ (data : List (List String)) (acc : List String),
      x ∈ data.foldl (fun acc r => addCats acc (catVals r)) acc ↔
        x ∈ acc ∨ ∃ r ∈ data, x ∈ catVals r := by
  intro data
  induction data with
  | nil => simp
  | cons r rs ih =>
    intro acc
    simp only [List.foldl_cons, ih, mem_addCats, List.mem_cons]
    constructor
    · rintro ((hx | hx) | ⟨r', hr', hx⟩)
      · exact Or.inl hx
      · exact Or.inr ⟨r, Or.inl rfl, hx⟩
      · exact Or.inr ⟨r', Or.inr hr', hx⟩
    · rintro (hx | ⟨r', hr' | hr', hx⟩)
      · exact Or.inl (Or.inl hx)
      · subst hr'
        exact Or.inl (Or.inr hx)
      · exact Or.inr ⟨r', hr', hx⟩

theorem mem_not_num_sub_attr (x : String) (data : List (List String)) :
    x ∈ not_num_sub_attr data ↔ ∃ r ∈ data, x ∈ catVals r := by
  unfold not_num_sub_attr
  rw [mem_fold_addCats]
  simp

theorem not_num_sub_attr_flat (data : List (List String)) :
    not_num_sub_attr data = addCats [] (concatAll (data.map catVals)) := by
  unfold not_num_sub_attr
  have aux : ∀ (d : List (List String)) (acc : List String),
      d.foldl (fun a r => addCats a (catVals r)) acc =
        addCats acc (concatAll (d.map catVals)) := by
    intro d
    induction d with
    | nil =>
      intro acc
      simp [concatAll, addCats]
    | cons r rs ih =>
      intro acc
      simp only [List.foldl_cons, List.map_cons, concatAll]
      rw [ih (addCats acc (catVals r))]
      unfold addCats
      rw [List.foldl_append]
  exact aux data []

theorem nodup_not_num_sub_attr (data : List (List String)) :
    (not_num_sub_attr data).Nodup := by
  unfold not_num_sub_attr
  have aux : ∀ (d : List (List String)) (acc : List String), acc.Nodup →
      (d.foldl (fun acc r => addCats acc (catVals r)) acc).Nodup := by
    intro d
    induction d with
    | nil => intro acc h; simpa using h
    | cons r rs ih =>
      intro acc h
      simp only [List.foldl_cons]
      exact ih _ (nodup_addCats (catVals r) acc h)
  exact aux data [] List.nodup_nil

theorem lane_slice_eq (data : List (List String)) (i : ℕ) (hi : i < 5)
    (h5 : ∀ r ∈ data, (numVals r).length = 5) :
    everyNth ((pos_num_attr data).drop i) 5 = specLaneVals (posRecords data) i ∧
    everyNth ((neg_num_attr data).drop i) 5 = specLaneVals (negRecords data) i := by
  constructor
  · unfold pos_num_attr specLaneVals
    rw [everyNth_concatAll 5 i 0 hi _ ?hlen]
    · rw [List.map_map]
      rfl
    case hlen =>
      intro c hc
      rcases List.mem_map.mp hc with ⟨r, hr, rfl⟩
      exact h5 r (List.mem_of_mem_filter hr)
  · unfold neg_num_attr specLaneVals
    rw [everyNth_concatAll 5 i 0 hi _ ?hlen2]
    · rw [List.map_map]
      rfl
    case hlen2 =>
      intro c hc
      rcases List.mem_map.mp hc with ⟨r, hr, rfl⟩
      exact h5 r (List.mem_of_mem_filter hr)

theorem midpoint_num_eq_spec (data : List (List String))
    (h5 : ∀ r ∈ data, (numVals r).length = 5)
    (hpos : posRecords data ≠ []) (hneg : negRecords data ≠ []) :
    midpoint_num (pos_num_attr data) (neg_num_attr data) =
      .ok ((List.range 5).map (fun i => specThreshold data i)) := by
  unfold midpoint_num
  apply exceptMap_all_ok
  intro i hi
  have hi5 : i < 5 := List.mem_range.mp hi
  rcases lane_slice_eq data i hi5 h5 with ⟨hp, hn⟩
  rw [hp, hn]
  have hpne : specLaneVals (posRecords data) i ≠ [] := by
    intro hcon
    exact hpos (List.map_eq_nil_iff.mp hcon)
  have hnne : specLaneVals (negRecords data) i ≠ [] := by
    intro hcon
    exact hneg (List.map_eq_nil_iff.mp hcon)
  rw [if_neg (not_or.mpr ⟨hpne, hnne⟩)]
  rfl

theorem midpoint_num_lane_zeroDiv (pos neg : List ℕ)
    (h : ∃ i, i < 5 ∧ (everyNth (pos.drop i) 5 = [] ∨ everyNth (neg.drop i) 5 = [])) :
    midpoint_num pos neg = .error .zeroDiv := by
  rcases h with ⟨i, hi5, hcase⟩
  unfold midpoint_num
  apply exceptMap_first_error
  · intro x _
    by_cases hc : everyNth (pos.drop x) 5 = [] ∨ everyNth (neg.drop x) 5 = []
    · left
      rw [if_pos hc]
    · right
      exact ⟨_, by rw [if_neg hc]⟩
  · exact ⟨i, List.mem_range.mpr hi5, by rw [if_pos hcase]⟩

theorem create_classifier_ok_shape (data : List (List String)) (mids : List ℚ)
    (hne : ∀ r ∈ data, r ≠ [])
    (hmid : midpoint_num (pos_num_attr data) (neg_num_attr data) = .ok mids)
    (hcase : not_num_sub_attr data = [] ∨
      (pos_not_num_attr data ≠ [] ∧ neg_not_num_attr data ≠ [])) :
    create_classifier data = .ok (mids, (not_num_sub_attr data).map
      (fun v =>
        (v, sentimentOf (pos_not_num_attr data) (neg_not_num_attr data) v))) := by
  unfold create_classifier
  have hany : data.any (fun r => r.isEmpty) = false := by
    rw [List.any_eq_false]
    intro r hr
    simp only [List.isEmpty_iff]
    exact hne r hr
  rw [hany]
  simp only [Bool.false_eq_true, if_false]
  have houtc : outcomes (pos_not_num_attr data) (neg_not_num_attr data)
      (not_num_sub_attr data) =
      .ok ((not_num_sub_attr data).map
        (fun v => sentimentOf (pos_not_num_attr data) (neg_not_num_attr data) v)) := by
    unfold outcomes
    apply exceptMap_all_ok
    intro v hv
    rcases hcase with hnil | ⟨hp, hn⟩
    · rw [hnil] at hv
      cases hv
    · rw [if_neg (not_or.mpr ⟨hp, hn⟩)]
  simp only [hmid, houtc]
  rw [zip_self_map]

theorem scenario_midpoints :
    midpoint_num (pos_num_attr scenarioData) (neg_num_attr scenarioData) =
      .ok [(40 : ℚ), 23 / 2, 0, 0, 40] := by
  rw [midpoint_num_eq_spec scenarioData (by decide) (by decide) (by decide)]
  have hrange : List.range 5 = [0, 1, 2, 3, 4] := by decide
  rw [hrange]
  simp only [List.map_cons, List.map_nil]
  have hp0 : specLaneVals (posRecords scenarioData) 0 = [50] := by decide
  have hp1 : specLaneVals (posRecords scenarioData) 1 = [13] := by decide
  have hp2 : specLaneVals (posRecords scenarioData) 2 = [0] := by decide
  have hp3 : specLaneVals (posRecords scenarioData) 3 = [0] := by decide
  have hp4 : specLaneVals (posRecords scenarioData) 4 = [40] := by decide
  have hn0 : specLaneVals (negRecords scenarioData) 0 = [30] := by decide
  have hn1 : specLaneVals (negRecords scenarioData) 1 = [10] := by decide
  have hn2 : specLaneVals (negRecords scenarioData) 2 = [0] := by decide
  have hn3 : specLaneVals (negRecords scenarioData) 3 = [0] := by decide
  have hn4 : specLaneVals (negRecords scenarioData) 4 = [40] := by decide
  unfold specThreshold
  rw [hp0, hp1, hp2, hp3, hp4, hn0, hn1, hn2, hn3, hn4]
  norm_num [mean]

/-- C1: when every training record carries exactly 5 numeric attributes, the
threshold the builder computes for each lane `i` is the midpoint of the
mean of the positive-pool lane-`i` values and the mean of the negative-pool
lane-`i` values; on the two-record scenario the lane-0 threshold is 40; and
a lane with no observations in either pool makes the computation a
ZeroDivisionError. -/
theorem C1_thresholds_are_midpoints_of_lane_means :
    (∀ data : List (List String),
      (∀ r ∈ data, (numVals r).length = 5) →
      posRecords data ≠ [] → negRecords data ≠ [] →
      midpoint_num (pos_num_attr data) (neg_num_attr data) =
        .ok ((List.range 5).map (fun i => specThreshold data i))) ∧
    (∃ rest tbl, create_classifier scenarioData = .ok ((40 : ℚ) :: rest, tbl)) ∧
    (∀ pos neg : List ℕ,
      (∃ i, i < 5 ∧ (everyNth (pos.drop i) 5 = [] ∨ everyNth (neg.drop i) 5 = [])) →
      midpoint_num pos neg = .error .zeroDiv) := by
  refine ⟨midpoint_num_eq_spec, ?_, midpoint_num_lane_zeroDiv⟩
  refine ⟨[(23 : ℚ) / 2, 0, 0, 40], (not_num_sub_attr scenarioData).map
    (fun v =>
      (v, sentimentOf (pos_not_num_attr scenarioData)
        (neg_not_num_attr scenarioData) v)), ?_⟩
  rw [create_classifier_ok_shape scenarioData [(40 : ℚ), 23 / 2, 0, 0, 40]
    (by decide) scenario_midpoints (Or.inr ⟨by decide, by decide⟩)]

theorem C1_thresholds_are_midpoints_of_lane_means_witness :
    midpoint_num (pos_num_attr scenarioData) (neg_num_attr scenarioData) =
      .ok ((List.range 5).map (fun i => specThreshold scenarioData i)) ∧
    midpoint_num [] [] = .error .zeroDiv :=
  ⟨C1_thresholds_are_midpoints_of_lane_means.1 scenarioData (by decide)
      (by decide) (by decide),
    C1_thresholds_are_midpoints_of_lane_means.2.2 [] []
      ⟨0, by omega, Or.inl (by simp [everyNth_nil])⟩⟩

/-- C2: the builder's distinct categorical values are collected without
duplicates, covering exactly the non-numeric attribute values of the
training records; the sentiment of a value is `"pos"`, `"neg"`, or
`"neutral"` exactly as its positive occurrence-rate ratio compares to its
negative one; and the sentiment table the classifier returns maps every
distinct value to that sentiment. -/
theorem C2_sentiment_table_by_rate_comparison :
    (∀ data : List (List String), (not_num_sub_attr data).Nodup ∧
      (∀ v, v ∈ not_num_sub_attr data ↔ ∃ r ∈ data, v ∈ catVals r) ∧
      not_num_sub_attr data = addCats [] (concatAll (data.map catVals))) ∧
    (∀ (posPool negPool : List String) (v : String),
      (sentimentOf posPool negPool v = "pos" ↔
        occRate negPool v < occRate posPool v) ∧
      (sentimentOf posPool negPool v = "neg" ↔
        occRate posPool v < occRate negPool v) ∧
      (sentimentOf posPool negPool v = "neutral" ↔
        occRate posPool v = occRate negPool v)) ∧
    (∀ (data : List (List String)) (mids : List ℚ),
      (∀ r ∈ data, r ≠ []) →
      midpoint_num (pos_num_attr data) (neg_num_attr data) = .ok mids →
      (not_num_sub_attr data = [] ∨
        (pos_not_num_attr data ≠ [] ∧ neg_not_num_attr data ≠ [])) →
      create_classifier data = .ok (mids, (not_num_sub_attr data).map
        (fun v =>
          (v, sentimentOf (pos_not_num_attr data) (neg_not_num_attr data) v)))) := by
  refine ⟨?_, ?_, ?_⟩
  · intro data
    exact ⟨nodup_not_num_sub_attr data, fun v => mem_not_num_sub_attr v data,
      not_num_sub_attr_flat data⟩
  · intro posPool negPool v
    unfold sentimentOf
    rcases lt_trichotomy (occRate negPool v) (occRate posPool v) with h | h | h
    · rw [if_pos h]
      exact ⟨⟨fun _ => h, fun _ => rfl⟩,
        ⟨fun hs => absurd hs (by decide), fun hlt => absurd hlt (lt_asymm h)⟩,
        ⟨fun hs => absurd hs (by decide), fun heq => absurd heq (ne_of_gt h)⟩⟩
    · rw [if_neg (by rw [h]; exact lt_irrefl _),
        if_neg (by rw [h]; exact lt_irrefl _)]
      exact ⟨⟨fun hs => absurd hs (by decide),
          fun hlt => absurd hlt (by rw [h]; exact lt_irrefl _)⟩,
        ⟨fun hs => absurd hs (by decide),
          fun hlt => absurd hlt (by rw [h]; exact lt_irrefl _)⟩,
        ⟨fun _ => h.symm, fun _ => rfl⟩⟩
    · rw [if_neg (lt_asymm h), if_pos h]
      exact ⟨⟨fun hs => absurd hs (by decide), fun hlt => absurd hlt (lt_asymm h)⟩,
        ⟨fun _ => h, fun _ => rfl⟩,
        ⟨fun hs => absurd hs (by decide), fun heq => absurd heq (ne_of_lt h)⟩⟩
  · intro data mids hne hmid hcase
    exact create_classifier_ok_shape data mids hne hmid hcase

theorem C2_sentiment_table_by_rate_comparison_witness :
    create_classifier scenarioData =
      .ok ([(40 : ℚ), 23 / 2, 0, 0, 40], (not_num_sub_attr scenarioData).map
        (fun v =>
          (v, sentimentOf (pos_not_num_attr scenarioData)
            (neg_not_num_attr scenarioData) v))) :=
  C2_sentiment_table_by_rate_comparison.2.2 scenarioData
    [(40 : ℚ), 23 / 2, 0, 0, 40] (by decide) scenario_midpoints
    (Or.inr ⟨by decide, by decide⟩)

/-- C6 fails on the code: the value `"-5"` parses entirely as an integer,
yet `isnumeric` rejects it, so both the builder (pool partition) and the
evaluator (vote dispatch) treat it as categorical. -/
theorem C6_counterexample :
    specParsesAsInt "-5" = true ∧ pyIsNumeric "-5" = false ∧
    "-5" ∈ pos_not_num_attr dataMinus5 ∧
    voteLoop [(0 : ℚ)] [] ["-5"] 0 0 0 = .ok (0, 0) :=
  ⟨by decide, by decide, by decide, by rfl⟩

/-- C6 amended: in both components a value is treated as numeric exactly
when `isnumeric` accepts it (nonempty, all decimal digits): values failing
it land in the categorical pools, values passing it land (converted) in a
numeric pool, and the evaluator votes by sentiment without moving the lane
cursor on the former and by threshold comparison while advancing the cursor
on the latter. -/
theorem C6_amended_numeric_dispatch_is_isnumeric :
    (∀ (data : List (List String)) (s : String),
      s ∈ pos_not_num_attr data ∨ s ∈ neg_not_num_attr data →
      pyIsNumeric s = false) ∧
    (∀ (data : List (List String)) (r : List String), r ∈ data →
      ∀ s ∈ attrsOf r, pyIsNumeric s = true →
      pyInt s ∈ pos_num_attr data ∨ pyInt s ∈ neg_num_attr data) ∧
    (∀ (th : List ℚ) (tbl : List (String × String)) (s : String)
        (rest : List String) (p n cur : ℕ), pyIsNumeric s = false →
      voteLoop th tbl (s :: rest) p n cur =
        voteLoop th tbl rest
          (p + if tbl.lookup s = some "pos" then 1 else 0)
          (n + if tbl.lookup s = some "neg" then 1 else 0) cur) ∧
    (∀ (th : List ℚ) (tbl : List (String × String)) (s : String)
        (rest : List String) (p n cur : ℕ) (t : ℚ), pyIsNumeric s = true →
      th.get? cur = some t →
      voteLoop th tbl (s :: rest) p n cur =
        voteLoop th tbl rest
          (p + if t < (pyInt s : ℚ) then 1 else 0)
          (n + if t < (pyInt s : ℚ) then 0 else 1) (cur + 1)) := by
  refine ⟨?_, ?_, ?_, ?_⟩
  · intro data s hs
    have hmem : ∃ r, s ∈ catVals r := by
      rcases hs with hs | hs
      · rcases (mem_concatAll s _).mp hs with ⟨c, hc, hsc⟩
        rcases List.mem_map.mp hc with ⟨r, _, rfl⟩
        exact ⟨r, hsc⟩
      · rcases (mem_concatAll s _).mp hs with ⟨c, hc, hsc⟩
        rcases List.mem_map.mp hc with ⟨r, _, rfl⟩
        exact ⟨r, hsc⟩
    rcases hmem with ⟨r, hr⟩
    have := (List.mem_filter.mp hr).2
    simpa using this
  · intro data r hr s hs hnum
    have hmemnv : pyInt s ∈ numVals r :=
      List.mem_filterMap.mpr ⟨s, hs, by rw [if_pos hnum]⟩
    by_cases hp : isPositive r
    · left
      exact (mem_concatAll _ _).mpr
        ⟨numVals r, List.mem_map_of_mem numVals
          (List.mem_filter.mpr ⟨hr, hp⟩), hmemnv⟩
    · right
      exact (mem_concatAll _ _).mpr
        ⟨numVals r, List.mem_map_of_mem numVals
          (List.mem_filter.mpr ⟨hr, by simpa using hp⟩), hmemnv⟩
  · intro th tbl s rest p n cur hs
    simp only [voteLoop, hs, Bool.false_eq_true, if_false]
    cases hl : tbl.lookup s with
    | none => simp
    | some o =>
      by_cases ho : o = "pos"
      · subst ho
        simp
      · by_cases ho2 : o = "neg"
        · subst ho2
          simp
        · simp [ho, ho2]
  · intro th tbl s rest p n cur t hs hget
    simp only [voteLoop, hs, if_true, hget]
    by_cases hlt : t < (pyInt s : ℚ)
    · simp [hlt]
    · simp [hlt]

theorem C6_amended_numeric_dispatch_is_isnumeric_witness :
    pyIsNumeric "-5" = false ∧
    (pyInt "50" ∈ pos_num_attr scenarioData ∨
      pyInt "50" ∈ neg_num_attr scenarioData) ∧
    voteLoop [(0 : ℚ)] [("-5", "pos")] ["-5", "7"] 0 0 0 =
      voteLoop [(0 : ℚ)] [("-5", "pos")] ["7"] (0 + 1) (0 + 0) 0 :=
  ⟨C6_amended_numeric_dispatch_is_isnumeric.1 dataMinus5 "-5"
      (Or.inl (by decide)),
    C6_amended_numeric_dispatch_is_isnumeric.2.1 scenarioData rec50
      (by decide) "50" (by decide) (by decide),
    by
      have h := C6_amended_numeric_dispatch_is_isnumeric.2.2.1
        [(0 : ℚ)] [("-5", "pos")] "-5" ["7"] 0 0 0 (by decide)
      simpa using h⟩

theorem voteLoop_spec (th : List ℚ) (tbl : List (String × String)) :
    ∀ (l : List String) (p n cur : ℕ),
      (l.filter pyIsNumeric).length ≤ th.length - cur →
      voteLoop th tbl l p n cur =
        .ok (p + specPosVotes (th.drop cur) tbl l,
          n + specNegVotes (th.drop cur) tbl l) := by
  intro l
  induction l with
  | nil =>
    intro p n cur _
    simp [voteLoop, specPosVotes, specNegVotes]
  | cons s rest ih =>
    intro p n cur hle
    by_cases hs : pyIsNumeric s = true
    · have hfnum : List.filter pyIsNumeric (s :: rest) =
          s :: List.filter pyIsNumeric rest := List.filter_cons_of_pos hs
      have hfcat : List.filter (fun x => !pyIsNumeric x) (s :: rest) =
          List.filter (fun x => !pyIsNumeric x) rest :=
        List.filter_cons_of_neg (by simp [hs])
      have hx := hle
      rw [hfnum, List.length_cons] at hx
      have hle' : (rest.filter pyIsNumeric).length ≤ th.length - (cur + 1) := by
        omega
      have hcur : cur < th.length := by omega
      obtain ⟨t, hget, hdropc⟩ :
          ∃ t, th.get? cur = some t ∧ th.drop cur = t :: th.drop (cur + 1) :=
        ⟨th.getD cur 0, get?_eq_getD_of_lt th cur 0 hcur,
          drop_cons_getD th cur 0 hcur⟩
      simp only [voteLoop]
      rw [if_pos hs]
      simp only [hget]
      by_cases hlt : t < (pyInt s : ℚ)
      · rw [if_pos hlt, ih (p + 1) n (cur + 1) hle']
        simp [specPosVotes, specNegVotes, hdropc, hfnum, hfcat,
          List.zip_cons_cons, List.countP_cons, hlt]
        omega
      · rw [if_neg hlt, ih p (n + 1) (cur + 1) hle']
        simp [specPosVotes, specNegVotes, hdropc, hfnum, hfcat,
          List.zip_cons_cons, List.countP_cons, hlt]
        omega
    · have hs' : pyIsNumeric s = false := by
        simpa using hs
      have hfnum : List.filter pyIsNumeric (s :: rest) =
          List.filter pyIsNumeric rest := List.filter_cons_of_neg hs
      have hfcat : List.filter (fun x => !pyIsNumeric x) (s :: rest) =
          s :: List.filter (fun x => !pyIsNumeric x) rest :=
        List.filter_cons_of_pos (by simp [hs'])
      have hle' : (rest.filter pyIsNumeric).length ≤ th.length - cur := by
        rw [hfnum] at hle
        exact hle
      simp only [voteLoop]
      rw [if_neg hs]
      cases hl : tbl.lookup s with
      | none =>
        rw [ih p n cur hle']
        simp [specPosVotes, specNegVotes, hfnum, hfcat, List.countP_cons, hl]
      | some o =>
        by_cases ho : o = "pos"
        · subst ho
          rw [ih (p + 1) n cur hle']
          simp [specPosVotes, specNegVotes, hfnum, hfcat, List.countP_cons, hl]
          omega
        · by_cases ho2 : o = "neg"
          · subst ho2
            rw [ih p (n + 1) cur hle']
            simp [specPosVotes, specNegVotes, hfnum, hfcat, List.countP_cons,
              hl]
            omega
          · rw [ih p n cur hle']
            simp [specPosVotes, specNegVotes, hfnum, hfcat, List.countP_cons,
              hl, ho, ho2]

/-- C3: the evaluator's walk over a record in schema order counts exactly
one positive vote per numeric value strictly above the threshold at its
numeric rank and per categorical value with sentiment `"pos"`, one negative
vote per remaining numeric value and per value with sentiment `"neg"`
(Neutral or unknown values cast none), and predicts `">50K"` exactly when
positive votes strictly exceed negative votes, so ties predict
`"<=50K"`. -/
theorem C3_prediction_by_majority_vote :
    ∀ (th : List ℚ) (tbl : List (String × String)) (r : List String),
      ((attrsOf r).filter pyIsNumeric).length ≤ th.length →
      voteLoop th tbl (attrsOf r) 0 0 0 =
        .ok (specPosVotes th tbl (attrsOf r), specNegVotes th tbl (attrsOf r)) ∧
      predictLabel th tbl r =
        .ok (if specNegVotes th tbl (attrsOf r) < specPosVotes th tbl (attrsOf r)
          then ">50K" else "<=50K") ∧
      (specPosVotes th tbl (attrsOf r) = specNegVotes th tbl (attrsOf r) →
        predictLabel th tbl r = .ok "<=50K") := by
  intro th tbl r hle
  have h := voteLoop_spec th tbl (attrsOf r) 0 0 0 (by simpa using hle)
  rw [List.drop_zero] at h
  simp only [Nat.zero_add] at h
  refine ⟨h, ?_, ?_⟩
  · unfold predictLabel
    rw [h]
  · intro heq
    unfold predictLabel
    rw [h, heq]
    simp

theorem C3_prediction_by_majority_vote_witness :
    voteLoop [(1 : ℚ)] [] (attrsOf ["2", "x"]) 0 0 0 =
      .ok (specPosVotes [(1 : ℚ)] [] (attrsOf ["2", "x"]),
        specNegVotes [(1 : ℚ)] [] (attrsOf ["2", "x"])) ∧
    predictLabel [(1 : ℚ)] [] ["2", "x"] =
      .ok (if specNegVotes [(1 : ℚ)] [] (attrsOf ["2", "x"]) <
          specPosVotes [(1 : ℚ)] [] (attrsOf ["2", "x"])
        then ">50K" else "<=50K") ∧
    (specPosVotes [(1 : ℚ)] [] (attrsOf ["2", "x"]) =
        specNegVotes [(1 : ℚ)] [] (attrsOf ["2", "x"]) →
      predictLabel [(1 : ℚ)] [] ["2", "x"] = .ok "<=50K") :=
  C3_prediction_by_majority_vote [(1 : ℚ)] [] ["2", "x"] (by decide)

theorem roundHalfEven_bounds (x : ℚ) (h0 : 0 ≤ x) (h1 : x ≤ 10000) :
    0 ≤ roundHalfEven x ∧ roundHalfEven x ≤ 10000 := by
  have hfl : (0 : ℤ) ≤ ⌊x⌋ := Int.floor_nonneg.mpr h0
  have hfu : ⌊x⌋ ≤ 10000 := by
    have h2 : ⌊x⌋ ≤ ⌊(10000 : ℚ)⌋ := Int.floor_le_floor h1
    have h3 : ((10000 : ℤ) : ℚ) = (10000 : ℚ) := by norm_num
    rw [← h3, Int.floor_intCast] at h2
    exact h2
  have hplus : ¬(x - (⌊x⌋ : ℚ) < 1 / 2) → ⌊x⌋ + 1 ≤ 10000 := by
    intro ha
    by_contra hcon
    have heq : ⌊x⌋ = 10000 := by omega
    have hcast : ((⌊x⌋ : ℤ) : ℚ) = 10000 := by
      rw [heq]
      norm_num
    rw [hcast] at ha
    have hxge : (10000 : ℚ) + 1 / 2 ≤ x := by linarith [not_lt.mp ha]
    linarith
  unfold roundHalfEven
  split_ifs with ha hb hc
  · exact ⟨hfl, hfu⟩
  · exact ⟨by omega, hplus ha⟩
  · exact ⟨hfl, hfu⟩
  · exact ⟨by omega, hplus ha⟩

theorem pyRound2_bounds (q : ℚ) (h0 : 0 ≤ q) (h1 : q ≤ 100) :
    0 ≤ pyRound2 q ∧ pyRound2 q ≤ 100 := by
  have hx0 : 0 ≤ q * 100 := by positivity
  have hx1 : q * 100 ≤ 10000 := by linarith
  rcases roundHalfEven_bounds (q * 100) hx0 hx1 with ⟨hl, hu⟩
  unfold pyRound2
  constructor
  · apply div_nonneg _ (by norm_num : (0 : ℚ) ≤ 100)
    exact_mod_cast hl
  · rw [div_le_iff (by norm_num : (0 : ℚ) < 100)]
    calc ((roundHalfEven (q * 100) : ℤ) : ℚ) ≤ ((10000 : ℤ) : ℚ) := by
          exact_mod_cast hu
      _ = 100 * 100 := by norm_num

theorem exceptMap_exists_ok {α β ε : Type _} (f : α → Except ε β) :
    ∀ l : List α, (∀ x ∈ l, ∃ y, f x = .ok y) →
      ∃ ys, exceptMap f l = .ok ys := by
  intro l
  induction l with
  | nil =>
    intro _
    exact ⟨[], rfl⟩
  | cons x xs ih =>
    intro h
    rcases h x (List.mem_cons_self x xs) with ⟨y, hy⟩
    rcases ih (fun a ha => h a (List.mem_cons_of_mem x ha)) with ⟨ys, hys⟩
    exact ⟨y :: ys, by simp only [exceptMap, hy, hys]⟩

theorem getLast?_some :
    ∀ r : List String, r ≠ [] → ∃ lab, r.getLast? = some lab := by
  intro r
  induction r with
  | nil =>
    intro h
    exact absurd rfl h
  | cons x xs ih =>
    intro _
    cases hxs : xs with
    | nil => exact ⟨x, rfl⟩
    | cons y ys =>
      rcases ih (by simp [hxs]) with ⟨lab, hlab⟩
      rw [hxs] at hlab
      exact ⟨lab, by rw [List.getLast?_cons_cons]; exact hlab⟩

theorem misjudged_ok (th : List ℚ) (tbl : List (String × String))
    (r : List String) (hne : r ≠ [])
    (hcnt : ((attrsOf r).filter pyIsNumeric).length ≤ th.length) :
    ∃ b, misjudged th tbl r = .ok b := by
  have hv := voteLoop_spec th tbl (attrsOf r) 0 0 0 (by simpa using hcnt)
  rcases getLast?_some r hne with ⟨lab, hlab⟩
  refine ⟨decide (lab ≠ (if specNegVotes (th.drop 0) tbl (attrsOf r) <
    specPosVotes (th.drop 0) tbl (attrsOf r) then ">50K" else "<=50K")), ?_⟩
  unfold misjudged predictLabel
  rw [hv]
  simp only [hlab, Nat.zero_add]

/-- C4: a non-empty test set of well-formed records is scored successfully,
and whenever the evaluator returns an accuracy for a test set, that
accuracy equals `round(100 - misclassified / total * 100, 2)` (the source's
`round(abs(incorrect / total * 100 - 100), 2)`) and lies in `[0, 100]`;
the empty test set is a ZeroDivisionError. -/
theorem C4_accuracy_formula_and_bounds :
    (∀ (t : List (List String)) (c : List ℚ × List (String × String)),
      t ≠ [] →
      (∀ r ∈ t, r ≠ [] ∧
        ((attrsOf r).filter pyIsNumeric).length ≤ c.1.length) →
      ∃ a, test_classifier t c = .ok a) ∧
    (∀ (t : List (List String)) (c : List ℚ × List (String × String)) (a : ℚ),
      test_classifier t c = .ok a →
      ∃ ms, exceptMap (misjudged c.1 c.2) t = .ok ms ∧
        a = pyRound2 (100 - (ms.count true : ℚ) / (t.length : ℚ) * 100) ∧
        0 ≤ a ∧ a ≤ 100) ∧
    (∀ c, test_classifier [] c = .error .zeroDiv) := by
  refine ⟨?_, ?_, ?_⟩
  · intro t c hne hall
    obtain ⟨ms, hms⟩ := exceptMap_exists_ok (misjudged c.1 c.2) t
      (fun r hr => misjudged_ok c.1 c.2 r (hall r hr).1 (hall r hr).2)
    refine ⟨pyRound2 |(ms.count true : ℚ) / (t.length : ℚ) * 100 - 100|, ?_⟩
    unfold test_classifier
    simp only [hms]
    rw [if_neg (fun h0 => hne (List.length_eq_zero.mp h0))]
  · intro t c a h
    unfold test_classifier at h
    cases hms : exceptMap (misjudged c.1 c.2) t with
    | error e =>
      simp only [hms] at h
      exact absurd h (by simp)
    | ok ms =>
      simp only [hms] at h
      by_cases hlen : t.length = 0
      · rw [if_pos hlen] at h
        cases h
      · rw [if_neg hlen] at h
        have ha : a = pyRound2 |(ms.count true : ℚ) / (t.length : ℚ) * 100 - 100| := by
          cases h
          rfl
        have hmsle : ms.count true ≤ t.length := by
          calc ms.count true ≤ ms.length := List.count_le_length true ms
            _ = t.length := exceptMap_ok_length (misjudged c.1 c.2) t ms hms
        have hlpos : (0 : ℚ) < (t.length : ℚ) := by
          exact_mod_cast Nat.pos_of_ne_zero hlen
        have hxle : (ms.count true : ℚ) / (t.length : ℚ) * 100 ≤ 100 := by
          have hdle : (ms.count true : ℚ) / (t.length : ℚ) ≤ 1 := by
            rw [div_le_one hlpos]
            exact_mod_cast hmsle
          linarith
        have hxge : 0 ≤ (ms.count true : ℚ) / (t.length : ℚ) * 100 := by
          positivity
        have habs : |(ms.count true : ℚ) / (t.length : ℚ) * 100 - 100| =
            100 - (ms.count true : ℚ) / (t.length : ℚ) * 100 := by
          rw [abs_of_nonpos (by linarith)]
          ring
        rcases pyRound2_bounds (100 - (ms.count true : ℚ) / (t.length : ℚ) * 100)
          (by linarith) (by linarith) with ⟨hb0, hb1⟩
        rw [ha, habs]
        exact ⟨ms, rfl, rfl, hb0, hb1⟩
  · intro c
    rfl

theorem C4_accuracy_formula_and_bounds_witness :
    (∃ ms, exceptMap (misjudged ([] : List ℚ) ([] : List (String × String)))
        [["a", "<=50K"]] = .ok ms ∧
      pyRound2 |((0 : ℕ) : ℚ) / ((1 : ℕ) : ℚ) * 100 - 100| =
        pyRound2 (100 - (ms.count true : ℚ) /
          (([["a", "<=50K"]] : List (List String)).length : ℚ) * 100) ∧
      0 ≤ pyRound2 |((0 : ℕ) : ℚ) / ((1 : ℕ) : ℚ) * 100 - 100| ∧
      pyRound2 |((0 : ℕ) : ℚ) / ((1 : ℕ) : ℚ) * 100 - 100| ≤ 100) ∧
    (∃ a, test_classifier [["a", "<=50K"]]
      (([] : List ℚ), ([] : List (String × String))) = .ok a) :=
  ⟨C4_accuracy_formula_and_bounds.2.1 [["a", "<=50K"]] ([], [])
      (pyRound2 |((0 : ℕ) : ℚ) / ((1 : ℕ) : ℚ) * 100 - 100|) rfl,
    C4_accuracy_formula_and_bounds.1 [["a", "<=50K"]] ([], [])
      (by decide) (by decide)⟩

theorem exists_fifteen (l : List String) (h : l.length = 15) :
    ∃ a0 a1 a2 a3 a4 a5 a6 a7 a8 a9 a10 a11 a12 a13 a14 : String,
      l = [a0, a1, a2, a3, a4, a5, a6, a7, a8,
        a9, a10, a11, a12, a13, a14] := by
  rcases l with _ | ⟨a0, l⟩
  · simp only [List.length_cons, List.length_nil] at h; omega
  rcases l with _ | ⟨a1, l⟩
  · simp only [List.length_cons, List.length_nil] at h; omega
  rcases l with _ | ⟨a2, l⟩
  · simp only [List.length_cons, List.length_nil] at h; omega
  rcases l with _ | ⟨a3, l⟩
  · simp only [List.length_cons, List.length_nil] at h; omega
  rcases l with _ | ⟨a4, l⟩
  · simp only [List.length_cons, List.length_nil] at h; omega
  rcases l with _ | ⟨a5, l⟩
  · simp only [List.length_cons, List.length_nil] at h; omega
  rcases l with _ | ⟨a6, l⟩
  · simp only [List.length_cons, List.length_nil] at h; omega
  rcases l with _ | ⟨a7, l⟩
  · simp only [List.length_cons, List.length_nil] at h; omega
  rcases l with _ | ⟨a8, l⟩
  · simp only [List.length_cons, List.length_nil] at h; omega
  rcases l with _ | ⟨a9, l⟩
  · simp only [List.length_cons, List.length_nil] at h; omega
  rcases l with _ | ⟨a10, l⟩
  · simp only [List.length_cons, List.length_nil] at h; omega
  rcases l with _ | ⟨a11, l⟩
  · simp only [List.length_cons, List.length_nil] at h; omega
  rcases l with _ | ⟨a12, l⟩
  · simp only [List.length_cons, List.length_nil] at h; omega
  rcases l with _ | ⟨a13, l⟩
  · simp only [List.length_cons, List.length_nil] at h; omega
  rcases l with _ | ⟨a14, l⟩
  · simp only [List.length_cons, List.length_nil] at h; omega
  rcases l with _ | ⟨a15, l⟩
  · exact ⟨a0, a1, a2, a3, a4, a5, a6, a7, a8, a9, a10, a11, a12, a13, a14, rfl⟩
  · simp only [List.length_cons, List.length_nil] at h
    omega

theorem cleaned_line_shape (fs : List String) (h15 : fs.length = 15) :
    (delCols fs).length = 12 ∧
    ((∀ j < 15, pyIsNumeric (fs.getD j "") = mask15.getD j false) →
      (∀ j < 11, pyIsNumeric ((delCols fs).getD j "") = mask11.getD j false) ∧
      (attrsOf (delCols fs)).countP pyIsNumeric = 5 ∧
      (attrsOf (delCols fs)).countP (fun s => !pyIsNumeric s) = 6) := by
  obtain ⟨a0, a1, a2, a3, a4, a5, a6, a7, a8, a9, a10, a11, a12, a13, a14, rfl⟩ :=
    exists_fifteen fs h15
  refine ⟨rfl, ?_⟩
  intro hmask
  have g0 : pyIsNumeric a0 = true := hmask 0 (by omega)
  have g1 : pyIsNumeric a1 = false := hmask 1 (by omega)
  have g4 : pyIsNumeric a4 = true := hmask 4 (by omega)
  have g5 : pyIsNumeric a5 = false := hmask 5 (by omega)
  have g6 : pyIsNumeric a6 = false := hmask 6 (by omega)
  have g7 : pyIsNumeric a7 = false := hmask 7 (by omega)
  have g8 : pyIsNumeric a8 = false := hmask 8 (by omega)
  have g9 : pyIsNumeric a9 = false := hmask 9 (by omega)
  have g10 : pyIsNumeric a10 = true := hmask 10 (by omega)
  have g11 : pyIsNumeric a11 = true := hmask 11 (by omega)
  have g12 : pyIsNumeric a12 = true := hmask 12 (by omega)
  have hattr : attrsOf (delCols [a0, a1, a2, a3, a4, a5, a6, a7, a8,
      a9, a10, a11, a12, a13, a14]) =
      [a0, a1, a4, a5, a6, a7, a8, a9, a10, a11, a12] := rfl
  refine ⟨?_, ?_, ?_⟩
  · intro j hj
    interval_cases j
    · exact g0
    · exact g1
    · exact g4
    · exact g5
    · exact g6
    · exact g7
    · exact g8
    · exact g9
    · exact g10
    · exact g11
    · exact g12
  · rw [hattr]
    simp [List.countP_cons, g0, g1, g4, g5, g6, g7, g8, g9, g10, g11, g12]
  · rw [hattr]
    simp [List.countP_cons, g0, g1, g4, g5, g6, g7, g8, g9, g10, g11, g12]

theorem cleanLines_all_ok :
    ∀ (lines : List String) (st : CleanState),
      (∀ l ∈ lines, l.toList.contains '?' = false ∧
        14 ≤ (pySplitComma l).length) →
      cleanLines st lines =
        .ok ⟨st.badRecords,
          st.cleaned ++ lines.map (fun l => delCols (pySplitComma l)),
          st.diags⟩ := by
  intro lines
  induction lines with
  | nil =>
    intro st _
    simp [cleanLines]
  | cons l rest ih =>
    intro st h
    rcases h l (List.mem_cons_self l rest) with ⟨hq, hlen⟩
    have hstep : cleanStep st l =
        .ok ⟨st.badRecords, st.cleaned ++ [delCols (pySplitComma l)],
          st.diags⟩ := by
      unfold cleanStep
      rw [hq]
      simp only [Bool.false_eq_true, if_false]
      rw [if_neg (pySplitComma_ne_nil l)]
      have hgt : 11 <
          ((pySplitComma l).take 2 ++ (pySplitComma l).drop 4).length := by
        simp only [List.length_append, List.length_take, List.length_drop]
        omega
      rw [if_pos hgt]
      rfl
    simp only [cleanLines, hstep]
    rw [ih _ (fun x hx => h x (List.mem_cons_of_mem l hx))]
    simp [List.append_assoc]

/-- C5 fails on the code: the `?`-free line `row14` splits into 14 fields
and survives the cleaner as a record of 11 fields, not 12. -/
theorem C5_counterexample :
    row14.toList.contains '?' = false ∧
    get_data row14 =
      .ok ⟨0, [["a", "b", "e", "f", "g", "h", "i", "j", "k", "l", "m"]], []⟩ ∧
    (["a", "b", "e", "f", "g", "h", "i", "j", "k", "l", "m"] :
      List String).length ≠ 12 :=
  ⟨by decide, by rfl, by decide⟩

/-- C5 amended: for input text free of the missing-value marker in which
every line splits into exactly 15 comma-separated fields, every surviving
record has exactly 12 fields; when additionally the 15 fields are numeric
exactly at the census schema's numeric columns (mask15), every surviving
record carries numeric attribute values exactly at positions 0, 2, 8, 9, 10
(mask11) — 5 numeric and 6 categorical attributes plus the trailing
label. -/
theorem C5_amended_surviving_schema :
    (∀ raw : String,
      (∀ l ∈ prepLines raw, l.toList.contains '?' = false ∧
        (pySplitComma l).length = 15) →
      ∃ st, get_data raw = .ok st ∧ ∀ r ∈ st.cleaned, r.length = 12) ∧
    (∀ raw : String,
      (∀ l ∈ prepLines raw, l.toList.contains '?' = false ∧
        (pySplitComma l).length = 15 ∧
        (∀ j < 15, pyIsNumeric ((pySplitComma l).getD j "") =
          mask15.getD j false)) →
      ∃ st, get_data raw = .ok st ∧ ∀ r ∈ st.cleaned,
        (∀ j < 11, pyIsNumeric (r.getD j "") = mask11.getD j false) ∧
        (attrsOf r).countP pyIsNumeric = 5 ∧
        (attrsOf r).countP (fun s => !pyIsNumeric s) = 6) := by
  constructor
  · intro raw h
    have hok := cleanLines_all_ok (prepLines raw) ⟨0, [], []⟩
      (fun l hl => ⟨(h l hl).1, by have := (h l hl).2; omega⟩)
    refine ⟨_, hok, ?_⟩
    intro r hr
    simp only [List.nil_append] at hr
    rcases List.mem_map.mp hr with ⟨l, hl, rfl⟩
    exact (cleaned_line_shape (pySplitComma l) (h l hl).2).1
  · intro raw h
    have hok := cleanLines_all_ok (prepLines raw) ⟨0, [], []⟩
      (fun l hl => ⟨(h l hl).1, by have := (h l hl).2.1; omega⟩)
    refine ⟨_, hok, ?_⟩
    intro r hr
    simp only [List.nil_append] at hr
    rcases List.mem_map.mp hr with ⟨l, hl, rfl⟩
    exact (cleaned_line_shape (pySplitComma l) (h l hl).2.1).2 (h l hl).2.2

theorem C5_amended_surviving_schema_witness :
    (∃ st, get_data row15 = .ok st ∧ ∀ r ∈ st.cleaned, r.length = 12) ∧
    (∃ st, get_data row15 = .ok st ∧ ∀ r ∈ st.cleaned,
      (∀ j < 11, pyIsNumeric (r.getD j "") = mask11.getD j false) ∧
      (attrsOf r).countP pyIsNumeric = 5 ∧
      (attrsOf r).countP (fun s => !pyIsNumeric s) = 6) :=
  ⟨C5_amended_surviving_schema.1 row15 (by decide),
    C5_amended_surviving_schema.2 row15 (by decide)⟩

end IncomePredictor
